import Mathlib

/-!
Shallow embedding of the helper logic of the `mapninja/notebooks` repository
(Planet-API tutorial notebooks): order-status polling, date grouping of search
items, order-request construction, download / unzip filesystem effects, and
webtile URL generation.  Remote-service behaviour (HTTP responses) is modelled
as explicit inputs: the sequence of status strings the server would return, the
content the server would serve for a URL, the pages a paginated search would
return.
-/

namespace Notebooks

/-! ### Order-status polling

`orders/ordering_and_delivery.ipynb` defines a single-order poller:

    def poll_for_success(order_url, auth, num_loops=30):
        count = 0
        while(count < num_loops):
            count += 1
            r = requests.get(order_url, auth=auth)
            response = r.json()
            state = response['state']
            print(state)
            end_states = ['success', 'failed', 'partial']
            if state in end_states:
                break
            time.sleep(10)

`analysis-ready-data/ard_2_use_case_1.ipynb` defines a multi-order poller:

    def poll_for_success(order_ids, client, num_loops=50):
        count = 0
        polling = copy(order_ids)
        completed = []
        while(count < num_loops):
            count += 1
            states = []
            for oid in copy(polling):
                order_info = client.get_individual_order(oid).get()
                state = order_info['state']
                states += state
                print('...')
                success_states = ['success', 'partial']
                if state == 'failed':
                    raise Exception(response)
                elif state in success_states:
                    polling.remove(oid)
                    completed += oid
            if not len(polling):
                print('done')
                break
            print('--')
            time.sleep(30)

The server is modelled as a function giving the state string observed at each
fetch.  The embeddings return, besides the outcome, instrumentation of the
fetches actually performed (a count for the single poller, a trace of
(iteration, order id) pairs for the multi poller), so that "how many times was
the status fetched" is a provable statement.  Neither `states` nor `completed`
is modelled: both are dead locals of the Python code (never read after being
extended, not returned).
-/

def end_states : List String := ["success", "failed", "partial"]

def success_states : List String := ["success", "partial"]

/-- Single-order poller of `ordering_and_delivery.ipynb`.  `statuses i` is the
state string the server returns at the i-th fetch (0-based); `fuel` is the
remaining loop budget (`num_loops - count`).  Returns the number of fetches
performed and the outcome; the Python function contains no `raise`, so the
error branch of `Except` is never produced. -/
def poll_for_success_single (statuses : Nat → String) : Nat → Nat → Nat × Except Unit Unit
  | _, 0 => (0, Except.ok ())
  | i, fuel + 1 =>
    let state := statuses i
    if state ∈ end_states then
      (1, Except.ok ())
    else
      let r := poll_for_success_single statuses (i + 1) fuel
      (r.1 + 1, r.2)

/-- One pass of the inner `for oid in copy(polling)` loop of the multi-order
poller, at a fixed iteration: `get_state oid` is the state the server returns
for order `oid` at this iteration.  Returns the list of order ids fetched
during the pass (in fetch order) and either an error (a 'failed' state was
observed, the Python code raises) or the polling list that remains after
removing the orders that reached a success state. -/
def poll_pass (get_state : String → String) : List String → List String × Except Unit (List String)
  | [] => ([], Except.ok [])
  | oid :: rest =>
    let state := get_state oid
    if state = "failed" then
      ([oid], Except.error ())
    else if state ∈ success_states then
      let r := poll_pass get_state rest
      (oid :: r.1, r.2)
    else
      let r := poll_pass get_state rest
      (oid :: r.1, Except.map (fun l => oid :: l) r.2)

/-- Multi-order poller of `ard_2_use_case_1.ipynb`.  `get_state t oid` is the
state the server returns for order `oid` during iteration `t`; `iter` is the
current iteration index and `fuel` the remaining loop budget.  Returns the
trace of (iteration, order id) fetches and either an error (raise on a
'failed' state) or the list of orders still being polled when the function
returns (empty when all completed, nonempty when the budget ran out). -/
def poll_for_success_multi (get_state : Nat → String → String) :
    Nat → Nat → List String → List (Nat × String) × Except Unit (List String)
  | _, 0, polling => ([], Except.ok polling)
  | iter, fuel + 1, polling =>
    let p := poll_pass (get_state iter) polling
    let tagged := p.1.map (fun oid => (iter, oid))
    match p.2 with
    | Except.error e => (tagged, Except.error e)
    | Except.ok [] => (tagged, Except.ok [])
    | Except.ok (o :: rem) =>
      let r := poll_for_success_multi get_state (iter + 1) fuel (o :: rem)
      (tagged ++ r.1, r.2)

instance {ε α : Type _} [DecidableEq ε] [DecidableEq α] : DecidableEq (Except ε α) := fun x y =>
  match x, y with
  | Except.error a, Except.error b =>
    if h : a = b then isTrue (by rw [h]) else
      isFalse (by intro hc; injection hc; contradiction)
  | Except.error _, Except.ok _ => isFalse (by intro hc; exact Except.noConfusion hc)
  | Except.ok _, Except.error _ => isFalse (by intro hc; exact Except.noConfusion hc)
  | Except.ok a, Except.ok b =>
    if h : a = b then isTrue (by rw [h]) else
      isFalse (by intro hc; injection hc; contradiction)

example : poll_for_success_single (fun _ => "failed") 0 30 = (1, Except.ok ()) := by
  decide

example :
    poll_for_success_multi (fun t _ => if t = 0 then "running" else "success") 0 50 ["a", "b"] =
      ([(0, "a"), (0, "b"), (1, "a"), (1, "b")], Except.ok []) := by
  decide

example :
    (poll_for_success_multi (fun _ o => if o = "b" then "failed" else "success") 0 50
      ["a", "b", "c"]).2 = Except.error () := by
  decide

/-! ### Date grouping (`ard_2_use_case_1.ipynb`)

    def get_acquired_date(item):
        return item['properties']['acquired'].split('T')[0]

    def get_date_item_ids(date, all_items):
        return [i['id'] for i in all_items if get_acquired_date(i) == date]

    def get_ids_by_date(items):
        acquired_dates = [get_acquired_date(item) for item in items]
        unique_acquired_dates = set(acquired_dates)
        ids_by_date = dict((d, get_date_item_ids(d, items))
                           for d in unique_acquired_dates)
        return ids_by_date

An item is modelled by the two fields the code reads.  The Python dict built
over a set comprehension is a finite map whose key iteration order is
unspecified; it is modelled as an association list over `List.dedup` of the
acquired dates (one concrete choice of key order — none of the properties
below depends on the order of the keys, only on lookup). -/

structure Item where
  id : String
  properties_acquired : String
  deriving DecidableEq, Repr

/-- Python `str.split` with a one-character separator, on the character list of
the string.  `split_char c cs` returns the (nonempty) list of chunks of `cs`
delimited by `c`; e.g. splitting `"aTb"` at `'T'` gives `["a", "b"]` and
splitting `""` gives `[""]`, as in Python.  (Structurally recursive, unlike
`String.splitOn`, so that concrete runs reduce.) -/
def split_char (c : Char) : List Char → List (List Char)
  | [] => [[]]
  | a :: rest =>
    if a = c then [] :: split_char c rest
    else
      match split_char c rest with
      | [] => [[a]]
      | g :: gs => (a :: g) :: gs

def get_acquired_date (item : Item) : String :=
  String.mk ((split_char 'T' item.properties_acquired.data).headD [])

def get_date_item_ids (date : String) (all_items : List Item) : List String :=
  (all_items.filter (fun i => get_acquired_date i == date)).map Item.id

def get_ids_by_date (items : List Item) : List (String × List String) :=
  let acquired_dates := items.map get_acquired_date
  let unique_acquired_dates := acquired_dates.dedup
  unique_acquired_dates.map (fun d => (d, get_date_item_ids d items))

example :
    get_ids_by_date
      [⟨"a", "2019-04-02T16:36:31Z"⟩, ⟨"b", "2019-04-08T16:00:00Z"⟩,
       ⟨"c", "2019-04-02T16:36:34Z"⟩] =
      [("2019-04-08", ["b"]), ("2019-04-02", ["a", "c"])] := by
  decide

/-! ### Order-request construction (`ard_2_use_case_1.ipynb`)

    def build_order(ids, name, aoi_geom):
        item_type = 'PSScene'
        bundle = 'analytic_sr_udm2'
        orders_request = {
            'name': name,
            'products': [{'item_ids': ids,
                          'item_type': item_type,
                          'product_bundle': bundle}],
            'tools': get_tools(aoi_geom),
            'delivery': {'single_archive': True,
                         'archive_filename': '{{name}}_{{order_id}}.zip',
                         'archive_type': 'zip'},
            'notifications': {'email': False},
        }
        return orders_request

    def get_tools(aoi_geom):
        clip_tool = {'clip': {'aoi': aoi_geom}}
        bandmath_tool = {'bandmath': {"pixel_type": "32R",
                                      "b1": "(b4 - b3) / (b4+b3)"}}
        composite_tool = {"composite": {}}
        tools = [clip_tool, bandmath_tool, composite_tool]
        return tools

    def get_orders_requests(ids_by_date, aoi_geom):
        order_requests = [build_order(ids, date, aoi_geom)
                          for date, ids in ids_by_date.items()]
        return order_requests

The nested request dicts are modelled structurally; the AOI geometry is an
opaque payload (type parameter `γ`), passed through unchanged. -/

structure Product where
  item_ids : List String
  item_type : String
  product_bundle : String
  deriving DecidableEq, Repr

inductive Tool (γ : Type) where
  | clip (aoi : γ)
  | bandmath (pixel_type b1 : String)
  | composite
  deriving DecidableEq, Repr

structure Delivery where
  single_archive : Bool
  archive_filename : String
  archive_type : String
  deriving DecidableEq, Repr

structure Notifications where
  email : Bool
  deriving DecidableEq, Repr

structure OrdersRequest (γ : Type) where
  name : String
  products : List Product
  tools : List (Tool γ)
  delivery : Delivery
  notifications : Notifications
  deriving DecidableEq, Repr

def get_tools {γ : Type} (aoi_geom : γ) : List (Tool γ) :=
  [Tool.clip aoi_geom, Tool.bandmath "32R" "(b4 - b3) / (b4+b3)", Tool.composite]

def build_order {γ : Type} (ids : List String) (name : String) (aoi_geom : γ) :
    OrdersRequest γ where
  name := name
  products := [{ item_ids := ids, item_type := "PSScene", product_bundle := "analytic_sr_udm2" }]
  tools := get_tools aoi_geom
  delivery :=
    { single_archive := true
      archive_filename := "\x7b\x7bname\x7d\x7d_\x7b\x7border_id\x7d\x7d.zip"
      archive_type := "zip" }
  notifications := { email := false }

def get_orders_requests {γ : Type} (ids_by_date : List (String × List String)) (aoi_geom : γ) :
    List (OrdersRequest γ) :=
  ids_by_date.map (fun p => build_order p.2 p.1 aoi_geom)

/-! ### Filesystem model

Local filesystem state for the download / unzip helpers.  Paths are lists of
components (`["data", "use_case_1", "x.zip"]` for `data/use_case_1/x.zip`);
`files` maps a path to the content stored at it, `dirs` tells whether a
directory exists at a path. -/

structure FS where
  files : List String → Option String
  dirs : List String → Bool

def FS.pathExists (fs : FS) (p : List String) : Bool :=
  (fs.files p).isSome || fs.dirs p

/-- `open(path, 'wb').write(content)`. -/
def FS.write (fs : FS) (p : List String) (content : String) : FS :=
  { fs with files := fun q => if q == p then some content else fs.files q }

/-- `path.mkdir(parents=True, exist_ok=True)`: creates `dir` and every
ancestor of it (the prefixes `dir.take k`). -/
def FS.mkdir_parents (fs : FS) (dir : List String) : FS :=
  { fs with
    dirs := fun q => fs.dirs q || (List.range (dir.length + 1)).any (fun k => q == dir.take k) }

/-- `shutil.rmtree(dir)`: removes the directory and everything below it. -/
def FS.rmtree (fs : FS) (dir : List String) : FS where
  files := fun p => if dir.isPrefixOf p then none else fs.files p
  dirs := fun p => if dir.isPrefixOf p then false else fs.dirs p

/-- The empty filesystem, for concrete runs. -/
def FS.empty : FS where
  files := fun _ => none
  dirs := fun _ => false

/-! ### Download (`orders/ordering_and_delivery.ipynb`)

    def download_results(results, overwrite=False):
        results_urls = [r['location'] for r in results]
        results_names = [r['name'] for r in results]
        print('{} items to download'.format(len(results_urls)))
        for url, name in zip(results_urls, results_names):
            path = pathlib.Path(os.path.join('data', name))
            if overwrite or not path.exists():
                print('downloading {} to {}'.format(name, path))
                r = requests.get(url, allow_redirects=True)
                path.parent.mkdir(parents=True, exist_ok=True)
                open(path, 'wb').write(r.content)
            else:
                print('{} already exists, skipping {}'.format(path, name))

A result is a pair of its remote location (an opaque URL string) and its local
name, the latter already as path components; `fetch url` is the payload the
server serves at `url`. -/

def download_step (fetch : String → String) (overwrite : Bool) (fs : FS)
    (r : String × List String) : FS :=
  let path := "data" :: r.2
  if overwrite || !(fs.pathExists path) then
    (fs.mkdir_parents path.dropLast).write path (fetch r.1)
  else
    fs

def download_results (fetch : String → String) (results : List (String × List String))
    (overwrite : Bool) (fs : FS) : FS :=
  results.foldl (download_step fetch overwrite) fs

example :
    (download_results (fun u => u ++ "!") [("u1", ["d", "a.zip"])] false FS.empty).files
      ["data", "d", "a.zip"] = some "u1!" := by
  decide

example :
    (download_results (fun u => u ++ "!") [("u1", ["a.zip"])] false
      { FS.empty with files := fun p => if p == ["data", "a.zip"] then some "old" else none }).files
      ["data", "a.zip"] = some "old" := by
  decide

/-! ### Unzip (`ard_2_use_case_1.ipynb`)

    def unzip(filename, overwrite=False):
        location = Path(filename)
        zipdir = location.parent / location.stem
        if os.path.isdir(zipdir):
            if overwrite:
                print('{} exists. overwriting.'.format(zipdir))
                shutil.rmtree(zipdir)
            else:
                raise Exception('{} already exists'.format(zipdir))
        with ZipFile(location) as myzip:
            myzip.extractall(zipdir)
        return zipdir

The zip archive itself is modelled by its entry list (relative path
components, content).  `extractall` creates the target directory and writes
each entry below it, creating intermediate directories. -/

/-- `str.rfind(c)` on a character list: index of the last occurrence, `none`
standing for Python's `-1`. -/
def rfind (cs : List Char) (c : Char) : Option Nat :=
  match cs.reverse.findIdx? (· == c) with
  | none => none
  | some k => some (cs.length - 1 - k)

/-- `PurePath.stem`: the final path component without its suffix.  Mirrors
pathlib, which strips from the last `'.'` only when it is neither the first
nor the last character of the name. -/
def stem (name : String) : String :=
  let cs := name.data
  match rfind cs '.' with
  | none => name
  | some i => if 0 < i ∧ i < cs.length - 1 then String.mk (cs.take i) else name

example : stem "composite.zip" = "composite" := by decide
example : stem "archive.tar.gz" = "archive.tar" := by decide
example : stem ".hidden" = ".hidden" := by decide
example : stem "noext" = "noext" := by decide

/-- `ZipFile(location).extractall(zipdir)`. -/
def extractall (fs : FS) (zipdir : List String) (entries : List (List String × String)) : FS :=
  entries.foldl
    (fun fs e => (fs.mkdir_parents (zipdir ++ e.1).dropLast).write (zipdir ++ e.1) e.2)
    (fs.mkdir_parents zipdir)

/-- The directory `location.parent / location.stem` that `unzip` extracts
into. -/
def zip_target (filename : List String) : List String :=
  filename.dropLast ++ [stem (filename.getLastD "")]

def unzip (entries : List (List String × String)) (filename : List String) (overwrite : Bool)
    (fs : FS) : FS × Except String (List String) :=
  let zipdir := zip_target filename
  if fs.dirs zipdir then
    if overwrite then
      (extractall (fs.rmtree zipdir) zipdir entries, Except.ok zipdir)
    else
      (fs, Except.error (String.intercalate "/" zipdir ++ " already exists"))
  else
    (extractall fs zipdir entries, Except.ok zipdir)

example :
    ((unzip [(["a.tif"], "img")] ["data", "x.zip"] false FS.empty).1).files
      ["data", "x", "a.tif"] = some "img" := by
  decide

/-! ### Webtiles (`webtiles/visualize_imagery_over_time.ipynb`)

    def get_item_ids(geometry, item_type='PSScene', start_date=None, end_date=None, limit=100):
        ... build filters, POST quick-search ...
        resp = session.post(quick_url, json=filter_request)
        results = resp.json()
        ids = [f['id'] for f in results['features']]
        while len(ids) < limit and results['_links'].get('next'):
            results = requests.get(results['_links'].get('next')).json()
            more_ids = [f['id'] for f in results['features']]
            ids += more_ids
        return ids[:limit]

The search response is modelled as the id list of the first page plus the
chain of pages reachable through the `next` links (the last page of the chain
has no `next` link); the filter construction is payload sent to the remote
service and does not affect the returned value. -/

def fetch_pages (limit : Nat) : List String → List (List String) → List String
  | ids, [] => ids
  | ids, page :: rest =>
    if ids.length < limit then fetch_pages limit (ids ++ page) rest else ids

def get_item_ids (firstPage : List String) (nextPages : List (List String)) (limit : Nat) :
    List String :=
  (fetch_pages limit firstPage nextPages).take limit

example : get_item_ids ["a", "b"] [["c", "d"], ["e"]] 3 = ["a", "b", "c"] := by decide
example : get_item_ids ["a", "b", "c"] [] 2 = ["a", "b"] := by decide

/-!
    def get_tile_urls(lat, lon, zoom=15, item_type='PSScene', start_date=..., end_date=...,
                      limit=5):
        geom = coords_to_geometry(lat, lon)
        item_ids = get_item_ids(geom, item_type=item_type, start_date=start_date,
                                end_date=end_date, limit=limit)
        tile = mercantile.tile(lon, lat, zoom)
        tile_url_template = 'https://tiles.planet.com/data/v1/{item_type}/{item_id}/{z}/{x}/{y}.png?api_key={api_key}'
        return [tile_url_template.format(item_type=item_type, item_id=i, x=tile.x, y=tile.y,
                                         z=zoom, api_key=PLANET_API_KEY) for i in item_ids]

`mercantile.tile` is an external library working on floating-point
coordinates; it is modelled as an opaque function `tileF` from (lon, lat,
zoom) to the (x, y) tile indices, over an arbitrary coordinate type `α`. -/

def tile_url_template (item_type item_id : String) (z x y : Nat) (api_key : String) : String :=
  "https://tiles.planet.com/data/v1/" ++ item_type ++ "/" ++ item_id ++ "/" ++ toString z ++
    "/" ++ toString x ++ "/" ++ toString y ++ ".png?api_key=" ++ api_key

def get_tile_urls {α : Type} (tileF : α → α → Nat → Nat × Nat)
    (firstPage : List String) (nextPages : List (List String))
    (lat lon : α) (zoom : Nat) (item_type : String) (limit : Nat) (api_key : String) :
    List String :=
  let item_ids := get_item_ids firstPage nextPages limit
  let tile := tileF lon lat zoom
  item_ids.map (fun i => tile_url_template item_type i zoom tile.1 tile.2 api_key)

/-! ## Theorems -/

/-! ### Webtiles: C9, C10 -/

/-- C9: `get_item_ids` returns at most `limit` identifiers (the accumulated
ids are truncated to the first `limit`), and returns the empty list when
`limit` is 0, for every search-response page sequence. -/
theorem C9_get_item_ids_at_most_limit (firstPage : List String)
    (nextPages : List (List String)) (limit : Nat) :
    (get_item_ids firstPage nextPages limit).length ≤ limit ∧
      get_item_ids firstPage nextPages 0 = [] := by
  constructor
  · simp only [get_item_ids]
    exact List.length_take_le _ _
  · simp [get_item_ids]

/-- C10: `get_tile_urls` returns exactly one URL per item identifier returned
by the underlying `get_item_ids` call, in the same order, and every URL embeds
the same tile coordinates (x, y, zoom), computed once by `mercantile.tile`
from the given longitude, latitude and zoom. -/
theorem C10_get_tile_urls_one_per_id {α : Type} (tileF : α → α → Nat → Nat × Nat)
    (firstPage : List String) (nextPages : List (List String)) (lat lon : α) (zoom : Nat)
    (item_type : String) (limit : Nat) (api_key : String) :
    (get_tile_urls tileF firstPage nextPages lat lon zoom item_type limit api_key).length =
        (get_item_ids firstPage nextPages limit).length ∧
      ∀ k : Nat,
        (get_tile_urls tileF firstPage nextPages lat lon zoom item_type limit api_key).get? k =
          ((get_item_ids firstPage nextPages limit).get? k).map
            (fun i =>
              tile_url_template item_type i zoom (tileF lon lat zoom).1 (tileF lon lat zoom).2
                api_key) := by
  constructor
  · simp [get_tile_urls]
  · intro k
    simp [get_tile_urls]

/-! ### Order requests: C8 -/

/-- C8: `get_orders_requests` builds exactly one order request per date group,
and the k-th request carries the k-th group's date as its `name` and exactly
that group's item identifiers in its (single) product. -/
theorem C8_get_orders_requests_one_per_group {γ : Type}
    (ids_by_date : List (String × List String)) (aoi_geom : γ) :
    (get_orders_requests ids_by_date aoi_geom).length = ids_by_date.length ∧
      ∀ k : Nat,
        ((get_orders_requests ids_by_date aoi_geom).get? k).map
            (fun r => (r.name, r.products.map Product.item_ids)) =
          (ids_by_date.get? k).map (fun g => (g.1, [g.2])) := by
  constructor
  · simp [get_orders_requests]
  · intro k
    simp [get_orders_requests, build_order, Option.map_map]
    rfl

/-! ### Date grouping: C2, C3 -/

theorem lookup_map_pair (l : List String) (f : String → List String) (d : String)
    (h : d ∈ l) : List.lookup d (l.map fun x => (x, f x)) = some (f d) := by
  induction l with
  | nil => cases h
  | cons a rest ih =>
    simp only [List.map_cons, List.lookup]
    rcases List.mem_cons.1 h with rfl | hr
    · simp
    · by_cases hd : d = a
      · subst hd; simp
      · have : (d == a) = false := beq_false_of_ne hd
        rw [this]
        exact ih hr

/-- C2: the keys of `get_ids_by_date` are exactly the distinct date substrings
(the part of the timestamp before 'T') of the input items, the value looked up
at each date is the list of the identifiers of the items having that date in
encounter order, and the empty input yields the empty mapping. -/
theorem C2_get_ids_by_date_mapping (items : List Item) :
    get_ids_by_date ([] : List Item) = [] ∧
      (∀ d : String,
        d ∈ (get_ids_by_date items).map Prod.fst ↔ d ∈ items.map get_acquired_date) ∧
      ∀ d : String, d ∈ items.map get_acquired_date →
        List.lookup d (get_ids_by_date items) =
          some ((items.filter (fun i => get_acquired_date i == d)).map Item.id) := by
  refine ⟨rfl, ?_, ?_⟩
  · intro d
    simp [get_ids_by_date, List.map_map, Function.comp_def, List.mem_dedup]
  · intro d hd
    have hmem : d ∈ (items.map get_acquired_date).dedup := List.mem_dedup.2 hd
    simpa [get_ids_by_date, get_date_item_ids] using
      lookup_map_pair ((items.map get_acquired_date).dedup)
        (fun x => get_date_item_ids x items) d hmem

/-- C2 witness: concrete lookup through the grouping of three items over two
dates. -/
theorem C2_get_ids_by_date_mapping_witness :
    List.lookup "2019-04-02"
        (get_ids_by_date
          [⟨"a", "2019-04-02T16:36:31Z"⟩, ⟨"b", "2019-04-08T16:00:00Z"⟩,
            ⟨"c", "2019-04-02T16:36:34Z"⟩]) = some ["a", "c"] := by
  have h := (C2_get_ids_by_date_mapping
    [⟨"a", "2019-04-02T16:36:31Z"⟩, ⟨"b", "2019-04-08T16:00:00Z"⟩,
      ⟨"c", "2019-04-02T16:36:34Z"⟩]).2.2 "2019-04-02" (by decide)
  exact h.trans (by decide)

theorem join_filter_perm (ds : List String) (items : List Item) (hnd : ds.Nodup)
    (hall : ∀ i ∈ items, get_acquired_date i ∈ ds) :
    ((ds.map (fun d => items.filter (fun i => get_acquired_date i == d))).flatten).Perm items := by
  induction ds generalizing items with
  | nil =>
    have : items = [] := by
      apply List.eq_nil_iff_forall_not_mem.2
      intro i hi
      exact absurd (hall i hi) (List.not_mem_nil _)
    subst this
    simp
  | cons d ds ih =>
    have hd_notin : d ∉ ds := (List.nodup_cons.1 hnd).1
    have hds : ds.Nodup := (List.nodup_cons.1 hnd).2
    simp only [List.map_cons, List.flatten_cons]
    have hmap_eq :
        ds.map (fun d' => items.filter (fun i => get_acquired_date i == d')) =
          ds.map (fun d' =>
            (items.filter (fun i => !(get_acquired_date i == d))).filter
              (fun i => get_acquired_date i == d')) := by
      apply List.map_congr_left
      intro d' hd'
      have hne : d' ≠ d := fun h => hd_notin (h ▸ hd')
      rw [List.filter_filter]
      apply List.filter_congr
      intro i _
      by_cases hdi : get_acquired_date i = d'
      · have h1 : (get_acquired_date i == d') = true := beq_iff_eq.2 hdi
        have h2 : (get_acquired_date i == d) = false :=
          beq_false_of_ne (fun h => hne (hdi.symm.trans h))
        simp [h1, h2]
      · have h1 : (get_acquired_date i == d') = false := beq_false_of_ne hdi
        simp [h1]
    rw [hmap_eq]
    have hrest : ∀ i ∈ items.filter (fun i => !(get_acquired_date i == d)),
        get_acquired_date i ∈ ds := by
      intro i hi
      have hmem := List.mem_filter.1 hi
      have hne : get_acquired_date i ≠ d := by
        have := hmem.2
        simpa using this
      rcases List.mem_cons.1 (hall i hmem.1) with h | h
      · exact absurd h hne
      · exact h
    have hperm := ih (items.filter (fun i => !(get_acquired_date i == d))) hds hrest
    refine List.Perm.trans (List.Perm.append_left _ hperm) ?_
    exact List.filter_append_perm _ items

/-- C3: for items with pairwise-distinct identifiers, the groups produced by
`get_ids_by_date` partition the input identifiers: the concatenation of the
group lists is a permutation of the input identifier list (multiset equality:
no duplicates, no omissions), and an item's identifier belongs to a group if
and only if that group is keyed by the item's own date substring. -/
theorem C3_get_ids_by_date_partition (items : List Item)
    (hnodup : (items.map Item.id).Nodup) :
    (((get_ids_by_date items).map Prod.snd).flatten).Perm (items.map Item.id) ∧
      ∀ i ∈ items, ∀ p ∈ get_ids_by_date items,
        (i.id ∈ p.2 ↔ p.1 = get_acquired_date i) := by
  constructor
  · have h1 : (get_ids_by_date items).map Prod.snd =
        (items.map get_acquired_date).dedup.map (fun d => get_date_item_ids d items) := by
      simp [get_ids_by_date, List.map_map, Function.comp_def]
    rw [h1]
    have h2 : (items.map get_acquired_date).dedup.map (fun d => get_date_item_ids d items) =
        ((items.map get_acquired_date).dedup.map
          (fun d => items.filter (fun i => get_acquired_date i == d))).map
            (List.map Item.id) := by
      simp [get_date_item_ids, List.map_map, Function.comp_def]
    rw [h2, ← List.map_flatten]
    exact (join_filter_perm _ items (List.nodup_dedup _)
      (fun i hi => List.mem_dedup.2 (List.mem_map_of_mem _ hi))).map _
  · intro i hi p hp
    simp only [get_ids_by_date, List.mem_map] at hp
    obtain ⟨d, _, rfl⟩ := hp
    simp only [get_date_item_ids]
    constructor
    · intro hmem
      rcases List.mem_map.1 hmem with ⟨j, hj, hjid⟩
      have hj' := List.mem_filter.1 hj
      have : j = i := List.inj_on_of_nodup_map hnodup hj'.1 hi hjid
      subst this
      exact (beq_iff_eq.1 hj'.2).symm
    · intro hdi
      apply List.mem_map_of_mem
      exact List.mem_filter.2 ⟨hi, beq_iff_eq.2 hdi.symm⟩

/-- C3 witness: for the three concrete items with distinct identifiers, the
flattened groups are a permutation of the identifier list. -/
theorem C3_get_ids_by_date_partition_witness :
    (((get_ids_by_date
          [⟨"a", "2019-04-02T16:36:31Z"⟩, ⟨"b", "2019-04-08T16:00:00Z"⟩,
            ⟨"c", "2019-04-02T16:36:34Z"⟩]).map Prod.snd).flatten).Perm
      ([⟨"a", "2019-04-02T16:36:31Z"⟩, ⟨"b", "2019-04-08T16:00:00Z"⟩,
        (⟨"c", "2019-04-02T16:36:34Z"⟩ : Item)].map Item.id) :=
  (C3_get_ids_by_date_partition
    [⟨"a", "2019-04-02T16:36:31Z"⟩, ⟨"b", "2019-04-08T16:00:00Z"⟩,
      ⟨"c", "2019-04-02T16:36:34Z"⟩] (by decide)).1

/-! ### Polling: helper lemmas -/

theorem mem_end_states_iff (s : String) :
    s ∈ end_states ↔ (s ∈ success_states ∨ s = "failed") := by
  simp [end_states, success_states]
  tauto

theorem poll_single_fetches_le (statuses : Nat → String) (i fuel : Nat) :
    (poll_for_success_single statuses i fuel).1 ≤ fuel := by
  induction fuel generalizing i with
  | zero => simp [poll_for_success_single]
  | succ fuel ih =>
    simp only [poll_for_success_single]
    split
    · omega
    · have := ih (i + 1)
      omega

theorem poll_single_ok (statuses : Nat → String) (i fuel : Nat) :
    (poll_for_success_single statuses i fuel).2 = Except.ok () := by
  induction fuel generalizing i with
  | zero => simp [poll_for_success_single]
  | succ fuel ih =>
    simp only [poll_for_success_single]
    split
    · rfl
    · exact ih (i + 1)

theorem poll_single_no_terminal (statuses : Nat → String) (fuel : Nat) :
    ∀ i : Nat, (∀ j, j < fuel → statuses (i + j) ∉ end_states) →
      poll_for_success_single statuses i fuel = (fuel, Except.ok ()) := by
  induction fuel with
  | zero => intro i _; rfl
  | succ fuel ih =>
    intro i h
    have h0 : statuses i ∉ end_states := by
      have := h 0 (Nat.succ_pos fuel)
      simpa using this
    simp only [poll_for_success_single, if_neg h0]
    have := ih (i + 1) (fun j hj => by
      have := h (j + 1) (Nat.succ_lt_succ hj)
      simpa [Nat.add_assoc, Nat.add_comm 1 j] using this)
    rw [this]

theorem poll_single_first_terminal (statuses : Nat → String) (m : Nat) :
    ∀ i fuel : Nat, m < fuel → statuses (i + m) ∈ end_states →
      (∀ j, j < m → statuses (i + j) ∉ end_states) →
      (poll_for_success_single statuses i fuel).1 = m + 1 := by
  induction m with
  | zero =>
    intro i fuel hf hterm _
    obtain ⟨fuel', rfl⟩ : ∃ fuel', fuel = fuel' + 1 :=
      ⟨fuel - 1, by omega⟩
    have h0 : statuses i ∈ end_states := by simpa using hterm
    simp [poll_for_success_single, if_pos h0]
  | succ m ih =>
    intro i fuel hf hterm hbefore
    obtain ⟨fuel', rfl⟩ : ∃ fuel', fuel = fuel' + 1 :=
      ⟨fuel - 1, by omega⟩
    have h0 : statuses i ∉ end_states := by
      have := hbefore 0 (Nat.succ_pos m)
      simpa using this
    simp only [poll_for_success_single, if_neg h0]
    have hrec := ih (i + 1) fuel' (by omega)
      (by have e : i + 1 + m = i + (m + 1) := by omega
          rw [e]; exact hterm)
      (fun j hj => by
        have h' := hbefore (j + 1) (Nat.succ_lt_succ hj)
        have e : i + 1 + j = i + (j + 1) := by omega
        rw [e]; exact h')
    simp [hrec]

theorem poll_pass_trace_sublist (gs : String → String) (polling : List String) :
    (poll_pass gs polling).1.Sublist polling := by
  induction polling with
  | nil => simp [poll_pass]
  | cons oid rest ih =>
    simp only [poll_pass]
    split
    · simp
    · split
      · exact List.Sublist.cons₂ oid ih
      · exact List.Sublist.cons₂ oid ih

theorem poll_pass_ok (gs : String → String) (polling : List String) (rem : List String)
    (h : (poll_pass gs polling).2 = Except.ok rem) :
    (poll_pass gs polling).1 = polling ∧
      rem = polling.filter (fun o => !(decide (gs o ∈ success_states))) ∧
      ∀ o ∈ polling, gs o ≠ "failed" := by
  induction polling generalizing rem with
  | nil =>
    simp only [poll_pass] at h
    injection h with h
    subst h
    exact ⟨rfl, rfl, by simp⟩
  | cons oid rest ih =>
    by_cases hfail : gs oid = "failed"
    · simp [poll_pass, hfail] at h
    · by_cases hsucc : gs oid ∈ success_states
      · simp only [poll_pass, if_neg hfail, if_pos hsucc] at h ⊢
        obtain ⟨h1, h2, h3⟩ := ih rem h
        refine ⟨by rw [h1], ?_, ?_⟩
        · rw [List.filter_cons, if_neg (by simp [hsucc])]
          exact h2
        · intro o ho
          rcases List.mem_cons.1 ho with rfl | ho'
          · exact hfail
          · exact h3 o ho'
      · simp only [poll_pass, if_neg hfail, if_neg hsucc] at h ⊢
        rcases hr : (poll_pass gs rest).2 with e | rem'
        · rw [hr] at h; simp [Except.map] at h
        · rw [hr] at h
          simp only [Except.map] at h
          injection h with h
          subst h
          obtain ⟨h1, h2, h3⟩ := ih rem' hr
          refine ⟨by rw [h1], ?_, ?_⟩
          · rw [List.filter_cons, if_pos (by simp [hsucc]), h2]
          · intro o ho
            rcases List.mem_cons.1 ho with rfl | ho'
            · exact hfail
            · exact h3 o ho'

theorem poll_pass_no_terminal (gs : String → String) (polling : List String)
    (h : ∀ o ∈ polling, gs o ∉ end_states) :
    poll_pass gs polling = (polling, Except.ok polling) := by
  induction polling with
  | nil => rfl
  | cons oid rest ih =>
    have hoid := h oid (List.mem_cons_self ..)
    have hfail : gs oid ≠ "failed" := by
      intro hc
      exact hoid ((mem_end_states_iff _).2 (Or.inr hc))
    have hsucc : gs oid ∉ success_states := by
      intro hc
      exact hoid ((mem_end_states_iff _).2 (Or.inl hc))
    have hrest := ih (fun o ho => h o (List.mem_cons_of_mem _ ho))
    simp [poll_pass, if_neg hfail, if_neg hsucc, hrest, Except.map]

theorem poll_multi_succ (gs : Nat → String → String) (iter fuel : Nat) (polling : List String) :
    poll_for_success_multi gs iter (fuel + 1) polling =
      match (poll_pass (gs iter) polling).2 with
      | Except.error e =>
        ((poll_pass (gs iter) polling).1.map (fun oid => (iter, oid)), Except.error e)
      | Except.ok [] =>
        ((poll_pass (gs iter) polling).1.map (fun oid => (iter, oid)), Except.ok [])
      | Except.ok (o :: rem) =>
        ((poll_pass (gs iter) polling).1.map (fun oid => (iter, oid)) ++
            (poll_for_success_multi gs (iter + 1) fuel (o :: rem)).1,
          (poll_for_success_multi gs (iter + 1) fuel (o :: rem)).2) := rfl

theorem poll_multi_trace_bounds (gs : Nat → String → String) (fuel : Nat) :
    ∀ (iter : Nat) (polling : List String) (t : Nat) (o : String),
      (t, o) ∈ (poll_for_success_multi gs iter fuel polling).1 →
      iter ≤ t ∧ t < iter + fuel ∧ o ∈ polling := by
  induction fuel with
  | zero =>
    intro iter polling t o h
    simp [poll_for_success_multi] at h
  | succ fuel ih =>
    intro iter polling t o h
    rcases hpass : poll_pass (gs iter) polling with ⟨tr, r⟩
    have h1 : (poll_pass (gs iter) polling).1 = tr := by rw [hpass]
    have h2 : (poll_pass (gs iter) polling).2 = r := by rw [hpass]
    have hsub : tr.Sublist polling := h1 ▸ poll_pass_trace_sublist (gs iter) polling
    rw [poll_multi_succ, h2, h1] at h
    have htag : ∀ t' o', (t', o') ∈ tr.map (fun oid => (iter, oid)) →
        iter ≤ t' ∧ t' < iter + (fuel + 1) ∧ o' ∈ polling := by
      intro t' o' hm
      rcases List.mem_map.1 hm with ⟨oid, hoid, heq⟩
      cases heq
      exact ⟨Nat.le_refl _, by omega, hsub.mem hoid⟩
    cases r with
    | error e => exact htag t o h
    | ok rem =>
      cases rem with
      | nil => exact htag t o h
      | cons o₀ rem' =>
        rcases List.mem_append.1 h with hm | hm
        · exact htag t o hm
        · obtain ⟨hge, hlt, hmem⟩ := ih (iter + 1) (o₀ :: rem') t o hm
          have hok : (poll_pass (gs iter) polling).2 = Except.ok (o₀ :: rem') := by
            rw [hpass]
          obtain ⟨_, hrem, _⟩ := poll_pass_ok (gs iter) polling (o₀ :: rem') hok
          have : o ∈ polling := by
            rw [hrem] at hmem
            exact (List.mem_filter.1 hmem).1
          exact ⟨by omega, by omega, this⟩

theorem poll_multi_ok_no_failed (gs : Nat → String → String) (fuel : Nat) :
    ∀ (iter : Nat) (polling : List String) (l : List String),
      (poll_for_success_multi gs iter fuel polling).2 = Except.ok l →
      ∀ t o, (t, o) ∈ (poll_for_success_multi gs iter fuel polling).1 → gs t o ≠ "failed" := by
  induction fuel with
  | zero =>
    intro iter polling l _ t o h
    simp [poll_for_success_multi] at h
  | succ fuel ih =>
    intro iter polling l hok t o h
    rcases hpass : poll_pass (gs iter) polling with ⟨tr, r⟩
    have h1 : (poll_pass (gs iter) polling).1 = tr := by rw [hpass]
    have h2 : (poll_pass (gs iter) polling).2 = r := by rw [hpass]
    rw [poll_multi_succ, h2, h1] at h hok
    cases r with
    | error e => simp at hok
    | ok rem =>
      have hpassOk : (poll_pass (gs iter) polling).2 = Except.ok rem := by rw [hpass]
      obtain ⟨htr, _, hnofail⟩ := poll_pass_ok (gs iter) polling rem hpassOk
      have htag : ∀ t' o', (t', o') ∈ tr.map (fun oid => (iter, oid)) → gs t' o' ≠ "failed" := by
        intro t' o' hm
        rcases List.mem_map.1 hm with ⟨oid, hoid, heq⟩
        cases heq
        exact hnofail o' (by rw [← htr, h1]; exact hoid)
      cases rem with
      | nil => exact htag t o h
      | cons o₀ rem' =>
        rcases List.mem_append.1 h with hm | hm
        · exact htag t o hm
        · exact ih (iter + 1) (o₀ :: rem') l hok t o hm

theorem countP_beq_eq_one_of_nodup_mem (l : List String) (oid : String) (hnd : l.Nodup)
    (hm : oid ∈ l) : l.countP (fun o => o == oid) = 1 := by
  induction l with
  | nil => cases hm
  | cons a rest ih =>
    rw [List.countP_cons]
    have hna : a ∉ rest := (List.nodup_cons.1 hnd).1
    have hnr : rest.Nodup := (List.nodup_cons.1 hnd).2
    rcases List.mem_cons.1 hm with rfl | hmr
    · have hz : rest.countP (fun o => o == oid) = 0 := by
        apply List.countP_eq_zero.2
        intro o ho hc
        exact hna ((beq_iff_eq.1 hc) ▸ ho)
      simp [hz]
    · have ha : (a == oid) = false := by
        apply beq_false_of_ne
        intro hc
        exact hna (hc ▸ hmr)
      rw [ih hnr hmr, ha]
      simp

theorem countP_tagged (tr : List String) (iter : Nat) (oid : String) :
    (tr.map (fun o => (iter, o))).countP (fun p => p.2 == oid) =
      tr.countP (fun o => o == oid) := by
  rw [List.countP_map]
  rfl

theorem poll_multi_count (gs : Nat → String → String) (fuel : Nat) :
    ∀ (iter : Nat) (polling : List String) (i : Nat) (oid : String),
      polling.Nodup →
      (i, oid) ∈ (poll_for_success_multi gs iter fuel polling).1 →
      gs i oid ∈ end_states →
      (∀ t, iter ≤ t → t < i → gs t oid ∉ end_states) →
      (poll_for_success_multi gs iter fuel polling).1.countP (fun p => p.2 == oid) =
          i + 1 - iter ∧
        ∀ j o, (j, o) ∈ (poll_for_success_multi gs iter fuel polling).1 → o = oid → j ≤ i := by
  induction fuel with
  | zero =>
    intro iter polling i oid _ hm _ _
    simp [poll_for_success_multi] at hm
  | succ fuel ih =>
    intro iter polling i oid hnd hm hterm hbefore
    rcases hpass : poll_pass (gs iter) polling with ⟨tr, r⟩
    have h1 : (poll_pass (gs iter) polling).1 = tr := by rw [hpass]
    have h2 : (poll_pass (gs iter) polling).2 = r := by rw [hpass]
    have hsub : tr.Sublist polling := h1 ▸ poll_pass_trace_sublist (gs iter) polling
    have htrnd : tr.Nodup := hnd.sublist hsub
    rw [poll_multi_succ, h2, h1] at hm ⊢
    have htag_mem : ∀ t' o', (t', o') ∈ tr.map (fun o => (iter, o)) → t' = iter ∧ o' ∈ tr := by
      intro t' o' hmm
      rcases List.mem_map.1 hmm with ⟨o₁, ho₁, heq⟩
      cases heq
      exact ⟨rfl, ho₁⟩
    cases r with
    | error e =>
      obtain ⟨hti, hoid_tr⟩ := htag_mem i oid hm
      subst hti
      constructor
      · rw [countP_tagged, countP_beq_eq_one_of_nodup_mem tr oid htrnd hoid_tr]
        omega
      · intro j o hj ho
        exact (htag_mem j o hj).1.le
    | ok rem =>
      have hpassOk : (poll_pass (gs iter) polling).2 = Except.ok rem := by rw [hpass]
      obtain ⟨htr_eq, hrem_eq, hnofail⟩ := poll_pass_ok (gs iter) polling rem hpassOk
      have htr_polling : tr = polling := by rw [← h1, htr_eq]
      cases rem with
      | nil =>
        obtain ⟨hti, hoid_tr⟩ := htag_mem i oid hm
        subst hti
        constructor
        · rw [countP_tagged, countP_beq_eq_one_of_nodup_mem tr oid htrnd hoid_tr]
          omega
        · intro j o hj ho
          exact (htag_mem j o hj).1.le
      | cons o₀ rem' =>
        have hrem_nd : (o₀ :: rem').Nodup := by
          rw [hrem_eq]
          exact hnd.filter _
        by_cases hi : i = iter
        · subst hi
          have hoid_polling : oid ∈ polling := by
            rcases List.mem_append.1 hm with hmm | hmm
            · exact hsub.mem (htag_mem i oid hmm).2
            · obtain ⟨hge, _, _⟩ := poll_multi_trace_bounds gs fuel (i + 1) (o₀ :: rem') i oid hmm
              omega
          have hsuccst : gs i oid ∈ success_states := by
            rcases (mem_end_states_iff _).1 hterm with h | h
            · exact h
            · exact absurd h (hnofail oid hoid_polling)
          have hoid_notin_rem : oid ∉ (o₀ :: rem') := by
            rw [hrem_eq]
            intro hc
            have := (List.mem_filter.1 hc).2
            simp [hsuccst] at this
          have hcount2 : (poll_for_success_multi gs (i + 1) fuel (o₀ :: rem')).1.countP
              (fun p => p.2 == oid) = 0 := by
            apply List.countP_eq_zero.2
            intro p hp hc
            rcases p with ⟨t', o'⟩
            obtain ⟨_, _, ho'⟩ := poll_multi_trace_bounds gs fuel (i + 1) (o₀ :: rem') t' o' hp
            exact hoid_notin_rem ((beq_iff_eq.1 hc) ▸ ho')
          constructor
          · rw [List.countP_append, countP_tagged,
              countP_beq_eq_one_of_nodup_mem tr oid htrnd (htr_polling ▸ hoid_polling), hcount2]
            omega
          · intro j o hj ho
            rcases List.mem_append.1 hj with hmm | hmm
            · exact (htag_mem j o hmm).1.le
            · subst ho
              obtain ⟨_, _, ho'⟩ := poll_multi_trace_bounds gs fuel (i + 1) (o₀ :: rem') j o hmm
              exact absurd ho' hoid_notin_rem
        · have hm2 : (i, oid) ∈ (poll_for_success_multi gs (iter + 1) fuel (o₀ :: rem')).1 := by
            rcases List.mem_append.1 hm with hmm | hmm
            · exact absurd (htag_mem i oid hmm).1 hi
            · exact hmm
          obtain ⟨hge, _, hoid_rem⟩ :=
            poll_multi_trace_bounds gs fuel (iter + 1) (o₀ :: rem') i oid hm2
          have hbefore' : ∀ t, iter + 1 ≤ t → t < i → gs t oid ∉ end_states := by
            intro t h₁ h₂
            exact hbefore t (by omega) h₂
          obtain ⟨hcnt, hbound⟩ :=
            ih (iter + 1) (o₀ :: rem') i oid hrem_nd hm2 hterm hbefore'
          have hoid_polling : oid ∈ polling := by
            rw [hrem_eq] at hoid_rem
            exact (List.mem_filter.1 hoid_rem).1
          constructor
          · rw [List.countP_append, countP_tagged,
              countP_beq_eq_one_of_nodup_mem tr oid htrnd (htr_polling ▸ hoid_polling), hcnt]
            omega
          · intro j o hj ho
            rcases List.mem_append.1 hj with hmm | hmm
            · have := (htag_mem j o hmm).1
              omega
            · exact hbound j o hmm ho

theorem poll_multi_no_terminal (gs : Nat → String → String) (fuel : Nat) :
    ∀ (iter : Nat) (polling : List String),
      (∀ t o, iter ≤ t → t < iter + fuel → o ∈ polling → gs t o ∉ end_states) →
      (poll_for_success_multi gs iter fuel polling).2 = Except.ok polling ∧
        (polling.Nodup → ∀ o ∈ polling,
          (poll_for_success_multi gs iter fuel polling).1.countP (fun p => p.2 == o) = fuel) := by
  induction fuel with
  | zero =>
    intro iter polling _
    exact ⟨rfl, fun _ o _ => rfl⟩
  | succ fuel ih =>
    intro iter polling hno
    have hpass : poll_pass (gs iter) polling = (polling, Except.ok polling) :=
      poll_pass_no_terminal (gs iter) polling
        (fun o ho => hno iter o (Nat.le_refl _) (by omega) ho)
    have h1 : (poll_pass (gs iter) polling).1 = polling := by rw [hpass]
    have h2 : (poll_pass (gs iter) polling).2 = Except.ok polling := by rw [hpass]
    rw [poll_multi_succ, h2, h1]
    cases polling with
    | nil => exact ⟨rfl, fun _ o ho => absurd ho (List.not_mem_nil o)⟩
    | cons o₀ rest =>
      have hno' : ∀ t o, iter + 1 ≤ t → t < iter + 1 + fuel → o ∈ o₀ :: rest →
          gs t o ∉ end_states := by
        intro t o ht₁ ht₂ ho
        exact hno t o (by omega) (by omega) ho
      obtain ⟨hok, hcnt⟩ := ih (iter + 1) (o₀ :: rest) hno'
      refine ⟨hok, ?_⟩
      intro hnd o ho
      rw [List.countP_append, countP_tagged,
        countP_beq_eq_one_of_nodup_mem (o₀ :: rest) o hnd ho, hcnt hnd o ho]
      omega

/-! ### Polling: claim theorems -/

/-- C1 counterexample: the single-order `poll_for_success` of
`ordering_and_delivery.ipynb`, run against a server that reports `'failed'`
at the very first fetch (so the first terminal status observed is the failure
status), performs one fetch and returns normally — it does not raise.  This
refutes the claim that `poll_for_success` never returns normally after
observing `'failed'`. -/
theorem C1_counterexample_single_poller_returns_normally_on_failed :
    poll_for_success_single (fun _ => "failed") 0 30 = (1, Except.ok ()) := by
  decide

/-- C1 (amended): the multi-order `poll_for_success` of
`ard_2_use_case_1.ipynb` raises an error whenever a `'failed'` status is
observed (equivalently, it never returns normally after observing
`'failed'`); the single-order `poll_for_success` of
`ordering_and_delivery.ipynb` never raises: it stops polling at the first
terminal status but returns normally even when that status is `'failed'`. -/
theorem C1_poll_failed_raises_amended :
    (∀ (gs : Nat → String → String) (iter fuel : Nat) (polling : List String) (l : List String),
      (poll_for_success_multi gs iter fuel polling).2 = Except.ok l →
        ∀ t o, (t, o) ∈ (poll_for_success_multi gs iter fuel polling).1 → gs t o ≠ "failed") ∧
      (∀ (gs : Nat → String → String) (iter fuel : Nat) (polling : List String) (t : Nat)
          (o : String),
        (t, o) ∈ (poll_for_success_multi gs iter fuel polling).1 → gs t o = "failed" →
          (poll_for_success_multi gs iter fuel polling).2 = Except.error ()) ∧
      ∀ (statuses : Nat → String) (i fuel : Nat),
        (poll_for_success_single statuses i fuel).2 = Except.ok () := by
  refine ⟨fun gs iter fuel polling l hok => poll_multi_ok_no_failed gs fuel iter polling l hok,
    ?_, poll_single_ok⟩
  intro gs iter fuel polling t o hmem hfailed
  rcases hr : (poll_for_success_multi gs iter fuel polling).2 with e | l
  · cases e
    rfl
  · exact absurd hfailed (poll_multi_ok_no_failed gs fuel iter polling l hr t o hmem)

/-- C1 (amended) witness: concrete run of the multi-order poller against a
server that reports `'failed'` for order `"a"` at iteration 0: the fetch
`(0, "a")` is in the trace, the status observed there is `'failed'`, and the
poller raises. -/
theorem C1_poll_failed_raises_amended_witness :
    (poll_for_success_multi (fun _ _ => "failed") 0 50 ["a"]).2 = Except.error () :=
  C1_poll_failed_raises_amended.2.1 (fun _ _ => "failed") 0 50 ["a"] 0 "a" (by decide) rfl

/-- C4: polling stops at the first terminal status.  Single-order poller: if
the k-th fetched status (1-based) is the first one in the terminal set
`{'success', 'failed', 'partial'}` and `k ≤ num_loops`, the poller performs
exactly `k` fetches.  Multi-order poller: if order `oid` (from a
duplicate-free order list) is fetched at iteration `i` and observes there its
first terminal status, then the whole run contains exactly `i + 1` fetches of
`oid` and no fetch of `oid` at any later iteration. -/
theorem C4_poll_stops_at_first_terminal :
    (∀ (statuses : Nat → String) (n k : Nat), 1 ≤ k → k ≤ n →
      statuses (k - 1) ∈ end_states → (∀ j, j < k - 1 → statuses j ∉ end_states) →
        (poll_for_success_single statuses 0 n).1 = k) ∧
      ∀ (gs : Nat → String → String) (n : Nat) (ids : List String) (i : Nat) (oid : String),
        ids.Nodup → (i, oid) ∈ (poll_for_success_multi gs 0 n ids).1 →
        gs i oid ∈ end_states → (∀ t, t < i → gs t oid ∉ end_states) →
          (poll_for_success_multi gs 0 n ids).1.countP (fun p => p.2 == oid) = i + 1 ∧
            ∀ j o, (j, o) ∈ (poll_for_success_multi gs 0 n ids).1 → o = oid → j ≤ i := by
  constructor
  · intro statuses n k hk1 hkn hterm hbefore
    have := poll_single_first_terminal statuses (k - 1) 0 n (by omega)
      (by simpa using hterm) (fun j hj => by simpa using hbefore j hj)
    rw [this]
    omega
  · intro gs n ids i oid hnd hm hterm hbefore
    have := poll_multi_count gs n 0 ids i oid hnd hm hterm
      (fun t _ ht => hbefore t ht)
    simpa using this

/-- C4 witness: concrete runs.  Single poller: the server reports
`'queued'`, `'running'`, then `'success'`; the first terminal status is the
3rd fetch and exactly 3 fetches are performed.  Multi poller: orders
`["a", "b"]` both report `'running'` at iteration 0 and `'success'` at
iteration 1; order `"a"` observes its first terminal status at iteration 1,
is fetched exactly twice, and never after iteration 1. -/
theorem C4_poll_stops_at_first_terminal_witness :
    (poll_for_success_single
        (fun i => if i = 0 then "queued" else if i = 1 then "running" else "success") 0 30).1 =
        3 ∧
      (poll_for_success_multi (fun t _ => if t = 0 then "running" else "success") 0 50
            ["a", "b"]).1.countP (fun p => p.2 == "a") = 2 ∧
        ∀ j o, (j, o) ∈ (poll_for_success_multi (fun t _ => if t = 0 then "running" else "success")
            0 50 ["a", "b"]).1 → o = "a" → j ≤ 1 := by
  refine ⟨?_, ?_⟩
  · exact C4_poll_stops_at_first_terminal.1
      (fun i => if i = 0 then "queued" else if i = 1 then "running" else "success") 30 3
      (by decide) (by decide) (by decide)
      (by decide)
  · have h := C4_poll_stops_at_first_terminal.2
      (fun t _ => if t = 0 then "running" else "success") 50 ["a", "b"] 1 "a"
      (by decide) (by decide) (by decide)
      (by decide)
    exact h

/-- C5: with no terminal status among the first `num_loops` fetches, both
pollers perform exactly `num_loops` iterations and then return normally
(no timeout error is raised; for the multi-order poller the full polling list
is still pending, and each order — in a duplicate-free order list — is
fetched exactly `num_loops` times); in all cases the single-order poller
performs at most `num_loops` fetches and the multi-order poller performs no
fetch at an iteration index ≥ `num_loops`. -/
theorem C5_poll_budget_exhaustion :
    (∀ (statuses : Nat → String) (n : Nat), (∀ j, j < n → statuses j ∉ end_states) →
      poll_for_success_single statuses 0 n = (n, Except.ok ())) ∧
      (∀ (statuses : Nat → String) (i n : Nat), (poll_for_success_single statuses i n).1 ≤ n) ∧
      (∀ (gs : Nat → String → String) (n : Nat) (ids : List String),
        (∀ t o, t < n → o ∈ ids → gs t o ∉ end_states) →
          (poll_for_success_multi gs 0 n ids).2 = Except.ok ids ∧
            (ids.Nodup → ∀ o ∈ ids,
              (poll_for_success_multi gs 0 n ids).1.countP (fun p => p.2 == o) = n)) ∧
      ∀ (gs : Nat → String → String) (n : Nat) (ids : List String) (t : Nat) (o : String),
        (t, o) ∈ (poll_for_success_multi gs 0 n ids).1 → t < n := by
  refine ⟨?_, poll_single_fetches_le, ?_, ?_⟩
  · intro statuses n h
    exact poll_single_no_terminal statuses n 0 (fun j hj => by simpa using h j hj)
  · intro gs n ids h
    exact poll_multi_no_terminal gs n 0 ids (fun t o ht₁ ht₂ ho => h t o (by omega) ho)
  · intro gs n ids t o hm
    have := poll_multi_trace_bounds gs n 0 ids t o hm
    omega

/-- C5 witness: a server that always reports `'running'` for 5 loops: the
single poller returns `(5, ok)`; fetch counts are bounded by the budget; the
multi poller ends with both orders still pending and two fetches... (concrete
instantiation of every conjunct of C5). -/
theorem C5_poll_budget_exhaustion_witness :
    poll_for_success_single (fun _ => "running") 0 5 = (5, Except.ok ()) ∧
      (poll_for_success_single (fun _ => "running") 0 5).1 ≤ 5 ∧
      (poll_for_success_multi (fun _ _ => "running") 0 5 ["a", "b"]).2 =
          Except.ok ["a", "b"] ∧
      (poll_for_success_multi (fun _ _ => "running") 0 5 ["a", "b"]).1.countP
          (fun p => p.2 == "a") = 5 ∧
      ((0, "a") ∈ (poll_for_success_multi (fun _ _ => "running") 0 5 ["a", "b"]).1 → 0 < 5) := by
  refine ⟨C5_poll_budget_exhaustion.1 (fun _ => "running") 5 (by decide),
    C5_poll_budget_exhaustion.2.1 (fun _ => "running") 0 5,
    (C5_poll_budget_exhaustion.2.2.1 (fun _ _ => "running") 5 ["a", "b"]
      (fun t o ht ho => by show "running" ∉ end_states; decide)).1,
    (C5_poll_budget_exhaustion.2.2.1 (fun _ _ => "running") 5 ["a", "b"]
      (fun t o ht ho => by show "running" ∉ end_states; decide)).2 (by decide) "a" (by decide),
    fun hm => C5_poll_budget_exhaustion.2.2.2 (fun _ _ => "running") 5 ["a", "b"] 0 "a" hm⟩

/-! ### Download and unzip: helper lemmas -/

theorem download_step_files_isSome_mono (fetch : String → String) (overwrite : Bool) (fs : FS)
    (r : String × List String) (p : List String) (h : (fs.files p).isSome = true) :
    ((download_step fetch overwrite fs r).files p).isSome = true := by
  simp only [download_step]
  split
  · simp only [FS.write, FS.mkdir_parents]
    split
    · rfl
    · exact h
  · exact h

theorem download_step_dirs_mono (fetch : String → String) (overwrite : Bool) (fs : FS)
    (r : String × List String) (q : List String) (h : fs.dirs q = true) :
    (download_step fetch overwrite fs r).dirs q = true := by
  simp only [download_step]
  split
  · simp [FS.write, FS.mkdir_parents, h]
  · exact h

theorem download_step_pathExists_mono (fetch : String → String) (overwrite : Bool) (fs : FS)
    (r : String × List String) (p : List String) (h : fs.pathExists p = true) :
    (download_step fetch overwrite fs r).pathExists p = true := by
  simp only [FS.pathExists, Bool.or_eq_true] at h ⊢
  rcases h with h | h
  · exact Or.inl (download_step_files_isSome_mono fetch overwrite fs r p h)
  · exact Or.inr (download_step_dirs_mono fetch overwrite fs r p h)

theorem download_results_untouched (fetch : String → String) (overwrite : Bool)
    (results : List (String × List String)) :
    ∀ (fs : FS) (p : List String), p ∉ results.map (fun r => "data" :: r.2) →
      (download_results fetch results overwrite fs).files p = fs.files p := by
  induction results with
  | nil => intro fs p _; rfl
  | cons a rest ih =>
    intro fs p hp
    have hpa : p ≠ "data" :: a.2 := by
      intro hc
      exact hp (by rw [hc]; exact List.mem_cons_self ..)
    have hprest : p ∉ rest.map (fun r => "data" :: r.2) := by
      intro hc
      exact hp (List.mem_cons_of_mem _ hc)
    show (download_results fetch rest overwrite (download_step fetch overwrite fs a)).files p =
      fs.files p
    rw [ih (download_step fetch overwrite fs a) p hprest]
    simp only [download_step]
    split
    · simp only [FS.write, FS.mkdir_parents]
      rw [if_neg]
      simp only [beq_iff_eq]
      exact hpa
    · rfl

theorem download_results_skips_existing (fetch : String → String)
    (results : List (String × List String)) :
    ∀ (fs : FS) (p : List String), fs.pathExists p = true →
      (download_results fetch results false fs).files p = fs.files p := by
  induction results with
  | nil => intro fs p _; rfl
  | cons a rest ih =>
    intro fs p hex
    show (download_results fetch rest false (download_step fetch false fs a)).files p =
      fs.files p
    rw [ih (download_step fetch false fs a) p
      (download_step_pathExists_mono fetch false fs a p hex)]
    simp only [download_step, Bool.false_or]
    split
    · rename_i hcond
      simp only [FS.write, FS.mkdir_parents]
      rw [if_neg]
      simp only [beq_iff_eq]
      intro hc
      subst hc
      rw [hex] at hcond
      simp at hcond
    · rfl

theorem download_step_writes (fetch : String → String) (overwrite : Bool) (fs : FS)
    (r : String × List String)
    (h : overwrite = true ∨ fs.pathExists ("data" :: r.2) = false) :
    (download_step fetch overwrite fs r).files ("data" :: r.2) = some (fetch r.1) ∧
      ∀ k, k ≤ (("data" :: r.2).dropLast).length →
        (download_step fetch overwrite fs r).dirs ((("data" :: r.2).dropLast).take k) = true := by
  have hcond : (overwrite || !(fs.pathExists ("data" :: r.2))) = true := by
    rcases h with h | h
    · simp [h]
    · simp [h]
  simp only [download_step, hcond, if_pos]
  constructor
  · simp [FS.write]
  · intro k hk
    simp only [FS.write, FS.mkdir_parents, Bool.or_eq_true]
    right
    rw [List.any_eq_true]
    exact ⟨k, List.mem_range.2 (by omega), by simp⟩

theorem isPrefixOf_append_self (l m : List String) : l.isPrefixOf (l ++ m) = true := by
  induction l with
  | nil =>
    cases m with
    | nil => rfl
    | cons b bs => rfl
  | cons a tl ih => simp [List.isPrefixOf, ih]

theorem extractall_files_outside (zipdir : List String) (entries : List (List String × String))
    (p : List String) (hp : zipdir.isPrefixOf p = false) :
    ∀ fs : FS, (extractall fs zipdir entries).files p = fs.files p := by
  have hgen : ∀ (es : List (List String × String)) (fs₀ : FS),
      (es.foldl
        (fun fs e => (fs.mkdir_parents (zipdir ++ e.1).dropLast).write (zipdir ++ e.1) e.2)
        fs₀).files p = fs₀.files p := by
    intro es
    induction es with
    | nil => intro fs₀; rfl
    | cons e rest ih =>
      intro fs₀
      rw [List.foldl_cons, ih]
      simp only [FS.write, FS.mkdir_parents]
      rw [if_neg]
      simp only [beq_iff_eq]
      intro hc
      subst hc
      rw [isPrefixOf_append_self] at hp
      exact Bool.false_ne_true hp.symm
  intro fs
  exact hgen entries (fs.mkdir_parents zipdir)

/-! ### Download: C6 -/

/-- C6: `download_results` never touches a path that is not among the
results' local paths; when `overwrite` is unset, a path that already exists
is never rewritten (its content is left unchanged); and whenever a result is
processed with `overwrite` set or its local path absent, the fetched content
is written at `data/<name>` and every parent directory of that path exists
afterwards. -/
theorem C6_download_results_skip_and_mkdir (fetch : String → String)
    (results : List (String × List String)) (overwrite : Bool) (fs : FS) :
    (∀ p : List String, p ∉ results.map (fun r => "data" :: r.2) →
        (download_results fetch results overwrite fs).files p = fs.files p) ∧
      (overwrite = false → ∀ p : List String, fs.pathExists p = true →
        (download_results fetch results false fs).files p = fs.files p) ∧
      ∀ (fs' : FS) (r : String × List String),
        overwrite = true ∨ fs'.pathExists ("data" :: r.2) = false →
          (download_step fetch overwrite fs' r).files ("data" :: r.2) = some (fetch r.1) ∧
            ∀ k, k ≤ (("data" :: r.2).dropLast).length →
              (download_step fetch overwrite fs' r).dirs ((("data" :: r.2).dropLast).take k) =
                true := by
  refine ⟨fun p hp => download_results_untouched fetch overwrite results fs p hp,
    fun _ p hex => download_results_skips_existing fetch results fs p hex,
    fun fs' r h => download_step_writes fetch overwrite fs' r h⟩

/-- C6 witness: concrete run with `overwrite = false` over a filesystem that
already holds `data/x`: the result pair addressed at the existing `data/x` is
skipped (content stays `"old"`), an unrelated path stays untouched, and a
fresh pair is written with its parent directories created. -/
theorem C6_download_results_skip_and_mkdir_witness :
    (download_results (fun _ => "new") [("u", ["x"])] false
        ((FS.empty.write ["data", "x"] "old"))).files ["data", "y"] =
        (FS.empty.write ["data", "x"] "old").files ["data", "y"] ∧
      (download_results (fun _ => "new") [("u", ["x"])] false
        ((FS.empty.write ["data", "x"] "old"))).files ["data", "x"] =
        (FS.empty.write ["data", "x"] "old").files ["data", "x"] ∧
      (download_step (fun _ => "new") false FS.empty ("u", ["d", "a.txt"])).files
          ["data", "d", "a.txt"] = some "new" ∧
      (download_step (fun _ => "new") false FS.empty ("u", ["d", "a.txt"])).dirs
          ["data", "d"] = true := by
  have h := C6_download_results_skip_and_mkdir (fun _ => "new") [("u", ["x"])] false
    (FS.empty.write ["data", "x"] "old")
  have h3 := h.2.2 FS.empty ("u", ["d", "a.txt"]) (Or.inr (by decide))
  refine ⟨h.1 ["data", "y"] (by decide), h.2.1 rfl ["data", "x"] (by decide), h3.1, ?_⟩
  have := h3.2 2 (by decide)
  simpa using this

/-! ### Unzip: C7 -/

/-- C7: `unzip` extracts the archive into the sibling directory named after
the archive's stem: it raises if and only if that directory already exists
and `overwrite` is `False`; when it raises the filesystem is unchanged; when
the directory exists and `overwrite` is `True` the directory tree is removed
before extraction; when the directory does not exist it extracts directly;
and in the successful cases no file outside the target directory is
touched. -/
theorem C7_unzip_overwrite_or_error (entries : List (List String × String))
    (filename : List String) (overwrite : Bool) (fs : FS) :
    ((∃ e, (unzip entries filename overwrite fs).2 = Except.error e) ↔
        (fs.dirs (zip_target filename) = true ∧ overwrite = false)) ∧
      (fs.dirs (zip_target filename) = true → overwrite = false →
        (unzip entries filename overwrite fs).1 = fs) ∧
      (fs.dirs (zip_target filename) = true → overwrite = true →
        unzip entries filename overwrite fs =
          (extractall (fs.rmtree (zip_target filename)) (zip_target filename) entries,
            Except.ok (zip_target filename))) ∧
      (fs.dirs (zip_target filename) = false →
        unzip entries filename overwrite fs =
          (extractall fs (zip_target filename) entries, Except.ok (zip_target filename))) ∧
      ∀ p : List String, (zip_target filename).isPrefixOf p = false →
        ((unzip entries filename overwrite fs).1).files p = fs.files p := by
  by_cases hdir : fs.dirs (zip_target filename) = true
  · cases overwrite with
    | false =>
      refine ⟨?_, ?_, ?_, ?_, ?_⟩
      · constructor
        · intro _
          exact ⟨hdir, rfl⟩
        · intro _
          exact ⟨String.intercalate "/" (zip_target filename) ++ " already exists",
            by simp [unzip, hdir]⟩
      · intro _ _
        simp [unzip, hdir]
      · intro _ hc
        cases hc
      · intro hc
        rw [hdir] at hc
        cases hc
      · intro p _
        simp [unzip, hdir]
    | true =>
      refine ⟨?_, ?_, ?_, ?_, ?_⟩
      · constructor
        · rintro ⟨e, he⟩
          simp [unzip, hdir] at he
        · rintro ⟨_, hc⟩
          cases hc
      · intro _ hc
        cases hc
      · intro _ _
        simp [unzip, hdir]
      · intro hc
        rw [hdir] at hc
        cases hc
      · intro p hp
        have h1 : (unzip entries filename true fs).1 =
            extractall (fs.rmtree (zip_target filename)) (zip_target filename) entries := by
          simp [unzip, hdir]
        rw [h1, extractall_files_outside (zip_target filename) entries p hp]
        simp only [FS.rmtree]
        rw [if_neg]
        intro hc
        rw [hp] at hc
        exact Bool.noConfusion hc
  · have hdirf : fs.dirs (zip_target filename) = false := by
      cases h : fs.dirs (zip_target filename)
      · rfl
      · exact absurd h hdir
    refine ⟨?_, ?_, ?_, ?_, ?_⟩
    · constructor
      · rintro ⟨e, he⟩
        simp [unzip, hdirf] at he
      · rintro ⟨hc, _⟩
        exact absurd hc hdir
    · intro hc _
      exact absurd hc hdir
    · intro hc _
      exact absurd hc hdir
    · intro _
      simp [unzip, hdirf]
    · intro p hp
      have h1 : (unzip entries filename overwrite fs).1 =
          extractall fs (zip_target filename) entries := by
        simp [unzip, hdirf]
      rw [h1, extractall_files_outside (zip_target filename) entries p hp]

/-- C7 witness: concrete runs.  With `data/z` already a directory and
`overwrite = False`, unzipping `data/z.zip` reports an error and leaves the
filesystem unchanged; over the empty filesystem the same call extracts, and a
path outside `data/z` is untouched. -/
theorem C7_unzip_overwrite_or_error_witness :
    (unzip [(["a"], "x")] ["data", "z.zip"] false
        { FS.empty with dirs := fun q => q == ["data", "z"] }).1 =
        { FS.empty with dirs := fun q => q == ["data", "z"] } ∧
      (∃ e, (unzip [(["a"], "x")] ["data", "z.zip"] false
        { FS.empty with dirs := fun q => q == ["data", "z"] }).2 = Except.error e) ∧
      ((unzip [(["a"], "x")] ["data", "z.zip"] false FS.empty).1).files ["q"] =
        FS.empty.files ["q"] := by
  have h := C7_unzip_overwrite_or_error [(["a"], "x")] ["data", "z.zip"] false
    { FS.empty with dirs := fun q => q == ["data", "z"] }
  have h2 := C7_unzip_overwrite_or_error [(["a"], "x")] ["data", "z.zip"] false FS.empty
  exact ⟨h.2.1 (by decide) rfl, h.1.2 ⟨by decide, rfl⟩, h2.2.2.2.2 ["q"] (by decide)⟩

end Notebooks
